import Mathlib

/-!
# InkFundMe crowdfunding ledger engine — verification development

Shallow embedding of the Ink!FundMe escrow engine (contract code shown in the
repository tutorial: `create_campaign`, `contribute`, `finalize`,
`claim_refund`, and the read-only queries) together with the ERC20-style
token ledger it drives.

Modelling choices:
* `U256` token amounts are `Nat`; the contract's `checked_add` is modelled
  with an explicit bound `u256Bound = 2 ^ 256`, and the unchecked `U256`
  addition used for the contribution-ledger update (which panics on overflow
  in the `primitive-types` crate) is modelled by a distinct `panic` outcome.
* Addresses and account ids are `Nat`; the engine's own escrow account
  (`self.env().account_id()`) is the constant `engine_account`.
* `Mapping` storage is an association list with replace-on-insert, so that
  states have decidable equality and claims can be evaluated on concrete
  inputs.
* ink! semantics: a message that returns `Err` (or traps in a panic) has its
  whole call frame reverted, so the observable post-state of a failed call is
  the pre-state.  Raw executions (`*_raw`) thread the partial state reached at
  the moment of the error return; `observe` applies the frame revert.
-/

/-- Error type of the contract (`Error` enum). -/
inductive Error where
  | CampaignNotFound
  | InvalidParameters
  | CampaignCompleted
  | DeadlineReached
  | OnlyOwner
  | DeadlineNotReached
  | CampaignNotCompleted
  | CampaignSuccessful
  | NoContribution
  | Overflow
  | InsufficientBalance
  | InsufficientAllowance
deriving DecidableEq, Repr

/-- The `U256` range bound: amounts live in `[0, 2^256)`. -/
def u256Bound : Nat := 2 ^ 256

/-- Campaign record (`pub struct Campaign`). -/
structure Campaign where
  id : Nat
  title : String
  description : String
  goal : Nat
  deadline : Nat
  owner : Nat
  raised : Nat
  completed : Bool
deriving DecidableEq, Repr

/-- Association-list lookup with default 0, as `Mapping::get(...).unwrap_or_default()`. -/
def mapGet {κ : Type} [DecidableEq κ] : List (κ × Nat) → κ → Nat
  | [], _ => 0
  | (k', v) :: rest, k => if k' = k then v else mapGet rest k

/-- Association-list insert, replacing any previous binding (`Mapping::insert`). -/
def mapSet {κ : Type} [DecidableEq κ] : List (κ × Nat) → κ → Nat → List (κ × Nat)
  | [], k, v => [(k, v)]
  | (k', v') :: rest, k, v =>
      if k' = k then (k, v) :: rest else (k', v') :: mapSet rest k v

/-- Modelled from the spec: the token contract's source is not in the
repository snapshot (only the tutorial's description of it), so the
TokenLedger state is taken from spec §4.1/§6: a balance mapping and an
allowance mapping keyed by (owner, spender). -/
structure TokenState where
  balances : List (Nat × Nat)
  allowances : List ((Nat × Nat) × Nat)
deriving DecidableEq, Repr

/-- Modelled from the spec: `transfer(from, to, amount)` "fails with
`InsufficientBalance` if `balance[from] < amount`; otherwise atomically
decrements `from` and increments `to`". -/
def transfer (src dst amount : Nat) (t : TokenState) : Except Error TokenState :=
  let bSrc := mapGet t.balances src
  if bSrc < amount then
    .error .InsufficientBalance
  else
    let m1 := mapSet t.balances src (bSrc - amount)
    .ok { t with balances := mapSet m1 dst (mapGet m1 dst + amount) }

/-- Modelled from the spec: `transferFrom(spender, owner, to, amount)` "fails
with `InsufficientAllowance` if `allowance[owner, spender] < amount`, or
`InsufficientBalance` per `transfer`; on success decrements the allowance by
`amount` and performs the balance transfer". -/
def transfer_from (spender owner dst amount : Nat) (t : TokenState) :
    Except Error TokenState :=
  let al := mapGet t.allowances (owner, spender)
  if al < amount then
    .error .InsufficientAllowance
  else
    match transfer owner dst amount t with
    | .error e => .error e
    | .ok t' => .ok { t' with allowances := mapSet t'.allowances (owner, spender) (al - amount) }

/-- Contract storage (`pub struct InkFundMe`): token contract state, the
campaign vector, the contribution mapping keyed by (campaign id, contributor),
and the auto-incrementing next campaign id. -/
structure EngineState where
  token : TokenState
  campaigns : List Campaign
  contributions : List ((Nat × Nat) × Nat)
  next_campaign_id : Nat
deriving DecidableEq, Repr

/-- The engine's own escrow account, `self.env().account_id()`. -/
def engine_account : Nat := 0

/-- Raw outcome of a message execution: normal return, error return, or panic
(trap).  Error and panic carry the partial state reached at that moment,
before the host applies the frame revert. -/
inductive RawResult (α : Type) where
  | ok (val : α) (s : EngineState)
  | err (e : Error) (s : EngineState)
  | panic (s : EngineState)
deriving DecidableEq, Repr

/-- Observable outcome of a message, after the host's revert handling. -/
inductive Outcome (α : Type) where
  | ok (val : α)
  | err (e : Error)
  | panic
deriving DecidableEq, Repr

/-- ink! frame semantics: a message returning `Err`, or trapping in a panic,
has every storage write of its call frame (sub-calls included) rolled back,
so the caller observes the pre-state. -/
def observe {α : Type} (s : EngineState) : RawResult α → Outcome α × EngineState
  | .ok v s' => (.ok v, s')
  | .err e _ => (.err e, s)
  | .panic _ => (.panic, s)

/-- `get_campaign`: `Err(CampaignNotFound)` when `campaign_id >= self.campaigns.len()`,
otherwise the stored record. -/
def get_campaign (campaign_id : Nat) (s : EngineState) : Except Error Campaign :=
  if h : campaign_id < s.campaigns.length then
    .ok (s.campaigns.get ⟨campaign_id, h⟩)
  else
    .error .CampaignNotFound

/-- `get_campaign_count`: `self.campaigns.len()`. -/
def get_campaign_count (s : EngineState) : Nat := s.campaigns.length

/-- `get_contribution`: `self.contributions.get((campaign_id, contributor)).unwrap_or_default()`. -/
def get_contribution (campaign_id contributor : Nat) (s : EngineState) : Nat :=
  mapGet s.contributions (campaign_id, contributor)

/-- Raw `create_campaign`: validates `goal == 0 || deadline <= now`
(`InvalidParameters`), then pushes the record with `id = next_campaign_id`,
`raised = 0`, `completed = false` and increments `next_campaign_id`. -/
def create_campaign_raw (caller : Nat) (title description : String)
    (goal deadline now : Nat) (s : EngineState) : RawResult Nat :=
  if goal = 0 ∨ deadline ≤ now then
    .err .InvalidParameters s
  else
    let campaign_id := s.next_campaign_id
    let campaign : Campaign :=
      { id := campaign_id, title := title, description := description,
        goal := goal, deadline := deadline, owner := caller,
        raised := 0, completed := false }
    .ok campaign_id
      { s with campaigns := s.campaigns ++ [campaign],
               next_campaign_id := s.next_campaign_id + 1 }

/-- Observable `create_campaign`. -/
def create_campaign (caller : Nat) (title description : String)
    (goal deadline now : Nat) (s : EngineState) : Outcome Nat × EngineState :=
  observe s (create_campaign_raw caller title description goal deadline now s)

/-- Raw `contribute`: loads the campaign (`CampaignNotFound`), checks
`completed` (`CampaignCompleted`) and `block_timestamp > deadline`
(`DeadlineReached`), then `token.transfer_from(caller, engine, amount)?`,
then `raised.checked_add(amount).ok_or(Overflow)?`, then the
contribution-ledger insert `contribution + amount` — an unchecked `U256`
addition, which panics on overflow. -/
def contribute_raw (caller campaign_id amount now : Nat) (s : EngineState) :
    RawResult Unit :=
  if h : campaign_id < s.campaigns.length then
    let campaign := s.campaigns.get ⟨campaign_id, h⟩
    if campaign.completed then .err .CampaignCompleted s
    else if campaign.deadline < now then .err .DeadlineReached s
    else
      match transfer_from engine_account caller engine_account amount s.token with
      | .error e => .err e s
      | .ok t' =>
        let s1 := { s with token := t' }
        if campaign.raised + amount < u256Bound then
          let campaigns' :=
            s1.campaigns.set campaign_id { campaign with raised := campaign.raised + amount }
          let s2 := { s1 with campaigns := campaigns' }
          let contribution := mapGet s2.contributions (campaign_id, caller)
          if contribution + amount < u256Bound then
            let contributions' :=
              mapSet s2.contributions (campaign_id, caller) (contribution + amount)
            .ok () { s2 with contributions := contributions' }
          else
            .panic s2
        else
          .err .Overflow s1
  else
    .err .CampaignNotFound s

/-- Observable `contribute`. -/
def contribute (caller campaign_id amount now : Nat) (s : EngineState) :
    Outcome Unit × EngineState :=
  observe s (contribute_raw caller campaign_id amount now s)

/-- Raw `finalize`: loads the campaign, checks `caller != owner` (`OnlyOwner`),
`completed` (`CampaignCompleted`), `block_timestamp <= deadline`
(`DeadlineNotReached`); sets `completed = true`, then if `raised >= goal`
transfers the full `raised` amount from the engine account to the owner. -/
def finalize_raw (caller campaign_id now : Nat) (s : EngineState) :
    RawResult Unit :=
  if h : campaign_id < s.campaigns.length then
    let campaign := s.campaigns.get ⟨campaign_id, h⟩
    if caller ≠ campaign.owner then .err .OnlyOwner s
    else if campaign.completed then .err .CampaignCompleted s
    else if now ≤ campaign.deadline then .err .DeadlineNotReached s
    else
      let campaigns' := s.campaigns.set campaign_id { campaign with completed := true }
      let s1 := { s with campaigns := campaigns' }
      if campaign.goal ≤ campaign.raised then
        match transfer engine_account campaign.owner campaign.raised s1.token with
        | .error e => .err e s1
        | .ok t' => .ok () { s1 with token := t' }
      else
        .ok () s1
  else
    .err .CampaignNotFound s

/-- Observable `finalize`. -/
def finalize (caller campaign_id now : Nat) (s : EngineState) :
    Outcome Unit × EngineState :=
  observe s (finalize_raw caller campaign_id now s)

/-- Raw `claim_refund`: loads the campaign, checks `!completed`
(`CampaignNotCompleted`), `raised >= goal` (`CampaignSuccessful`), zero
contribution (`NoContribution`); clears the contribution entry to zero, then
transfers the recorded contribution from the engine account to the caller. -/
def claim_refund_raw (caller campaign_id : Nat) (s : EngineState) :
    RawResult Unit :=
  if h : campaign_id < s.campaigns.length then
    let campaign := s.campaigns.get ⟨campaign_id, h⟩
    if !campaign.completed then .err .CampaignNotCompleted s
    else if campaign.goal ≤ campaign.raised then .err .CampaignSuccessful s
    else
      let contribution := mapGet s.contributions (campaign_id, caller)
      if contribution = 0 then .err .NoContribution s
      else
        let contributions' := mapSet s.contributions (campaign_id, caller) 0
        let s1 := { s with contributions := contributions' }
        match transfer engine_account caller contribution s1.token with
        | .error e => .err e s1
        | .ok t' => .ok () { s1 with token := t' }
  else
    .err .CampaignNotFound s

/-- Observable `claim_refund`. -/
def claim_refund (caller campaign_id : Nat) (s : EngineState) :
    Outcome Unit × EngineState :=
  observe s (claim_refund_raw caller campaign_id s)

/-- One mutating engine operation together with its caller and the block
timestamp it observes. -/
inductive Op where
  | create (caller : Nat) (title description : String) (goal deadline now : Nat)
  | contrib (caller campaign_id amount now : Nat)
  | fin (caller campaign_id now : Nat)
  | refund (caller campaign_id : Nat)
deriving DecidableEq, Repr

/-- Forget the returned value of an outcome. -/
def Outcome.void {α : Type} : Outcome α → Outcome Unit
  | .ok _ => .ok ()
  | .err e => .err e
  | .panic => .panic

/-- Observable effect of one operation: outcome plus committed post-state. -/
def run (op : Op) (s : EngineState) : Outcome Unit × EngineState :=
  match op with
  | .create caller title description goal deadline now =>
      let r := create_campaign caller title description goal deadline now s
      (r.1.void, r.2)
  | .contrib caller campaign_id amount now => contribute caller campaign_id amount now s
  | .fin caller campaign_id now => finalize caller campaign_id now s
  | .refund caller campaign_id => claim_refund caller campaign_id s

/-- Modelled from the spec: the constructor `new(token_address)` is not in the
repository snapshot; per spec §4.2/§6 the engine starts with no campaigns, no
contributions and the next-campaign-id counter at 0, over an arbitrary token
ledger state. -/
def initState (t : TokenState) : EngineState :=
  { token := t, campaigns := [], contributions := [], next_campaign_id := 0 }

/-- States reachable from an initial state by successful operations drawn from
the class `P`.  Failed operations leave the observable state unchanged, so
closing only under successful steps loses nothing. -/
inductive Reaches (P : Op → Prop) : EngineState → Prop where
  | init (t : TokenState) : Reaches P (initState t)
  | step {s s' : EngineState} {op : Op} :
      Reaches P s → P op → run op s = (.ok (), s') → Reaches P s'

/-- States reachable by arbitrary engine operations. -/
def Reachable (s : EngineState) : Prop := Reaches (fun _ => True) s

/-- Operations other than `claim_refund`. -/
def NotRefund : Op → Prop
  | .refund _ _ => False
  | _ => True

/-- Sum of the contribution entries of one campaign over all contributors. -/
def contribSum (m : List ((Nat × Nat) × Nat)) (cid : Nat) : Nat :=
  match m with
  | [] => 0
  | (k, v) :: rest => (if k.1 = cid then v else 0) + contribSum rest cid

/-- The `raised` field of campaign `cid`, or 0 when no such campaign exists. -/
def raisedOf (s : EngineState) (cid : Nat) : Nat :=
  match get_campaign cid s with
  | .ok c => c.raised
  | .error _ => 0

theorem mapGet_mapSet_self {κ : Type} [DecidableEq κ] (m : List (κ × Nat)) (k : κ) (v : Nat) :
    mapGet (mapSet m k v) k = v := by
  induction m with
  | nil => simp [mapGet, mapSet]
  | cons p rest ih =>
    obtain ⟨k', v'⟩ := p
    by_cases hk : k' = k
    · simp [mapGet, mapSet, hk]
    · simp [mapGet, mapSet, hk, ih]

theorem mapGet_mapSet_ne {κ : Type} [DecidableEq κ] (m : List (κ × Nat)) (k k' : κ) (v : Nat)
    (h : k' ≠ k) : mapGet (mapSet m k v) k' = mapGet m k' := by
  have hkk : k ≠ k' := fun he => h he.symm
  induction m with
  | nil => simp [mapGet, mapSet, hkk]
  | cons p rest ih =>
    obtain ⟨k₀, v₀⟩ := p
    by_cases hk : k₀ = k
    · subst hk
      simp [mapGet, mapSet, hkk]
    · simp [mapGet, mapSet, hk, ih]

/-- Replacing the first binding of `(cid, a)` by `v` changes the campaign sum
from `contribSum m cid` to `contribSum m cid - mapGet m (cid, a) + v`, stated
additively. -/
theorem contribSum_mapSet_same (m : List ((Nat × Nat) × Nat)) (cid a v : Nat) :
    contribSum (mapSet m (cid, a) v) cid + mapGet m (cid, a) =
      contribSum m cid + v := by
  induction m with
  | nil => simp [contribSum, mapGet, mapSet]
  | cons p rest ih =>
    obtain ⟨k₀, v₀⟩ := p
    by_cases hk : k₀ = (cid, a)
    · subst hk
      simp [contribSum, mapGet, mapSet]
      omega
    · have hget : mapGet ((k₀, v₀) :: rest) (cid, a) = mapGet rest (cid, a) := by
        simp [mapGet, hk]
      have hsum : contribSum (mapSet ((k₀, v₀) :: rest) (cid, a) v) cid =
          (if k₀.1 = cid then v₀ else 0) + contribSum (mapSet rest (cid, a) v) cid := by
        simp [mapSet, hk, contribSum]
      rw [hsum, hget, contribSum]
      omega

/-- Updating a binding of campaign `cid` leaves the sums of other campaigns
unchanged. -/
theorem contribSum_mapSet_other (m : List ((Nat × Nat) × Nat)) (cid a v cid' : Nat)
    (h : cid ≠ cid') :
    contribSum (mapSet m (cid, a) v) cid' = contribSum m cid' := by
  induction m with
  | nil => simp [contribSum, mapSet, h]
  | cons p rest ih =>
    obtain ⟨k₀, v₀⟩ := p
    by_cases hk : k₀ = (cid, a)
    · subst hk
      simp [contribSum, mapSet, h, ih]
    · simp [contribSum, mapSet, hk, ih]

/-- A single entry never exceeds its campaign's sum. -/
theorem mapGet_le_contribSum (m : List ((Nat × Nat) × Nat)) (cid a : Nat) :
    mapGet m (cid, a) ≤ contribSum m cid := by
  induction m with
  | nil => simp [mapGet, contribSum]
  | cons p rest ih =>
    obtain ⟨k₀, v₀⟩ := p
    by_cases hk : k₀ = (cid, a)
    · subst hk
      simp [mapGet, contribSum]
    · have : mapGet ((k₀, v₀) :: rest) (cid, a) = mapGet rest (cid, a) := by
        simp [mapGet, hk]
      rw [this, contribSum]
      omega

theorem create_campaign_ok_inv {caller : Nat} {title description : String}
    {goal deadline now id : Nat} {s s' : EngineState}
    (h : create_campaign caller title description goal deadline now s = (.ok id, s')) :
    goal ≠ 0 ∧ now < deadline ∧ id = s.next_campaign_id ∧
    s' = { s with
           campaigns := s.campaigns ++
             [{ id := s.next_campaign_id, title := title, description := description,
                goal := goal, deadline := deadline, owner := caller,
                raised := 0, completed := false }],
           next_campaign_id := s.next_campaign_id + 1 } := by
  unfold create_campaign create_campaign_raw at h
  split at h
  · simp [observe] at h
  · next hcond =>
    push_neg at hcond
    simp [observe] at h
    exact ⟨hcond.1, hcond.2, h.1.symm, h.2.symm⟩

theorem claim_refund_ok_inv {caller campaign_id : Nat} {s s' : EngineState}
    (h : claim_refund caller campaign_id s = (.ok (), s')) :
    ∃ (hlt : campaign_id < s.campaigns.length),
      (s.campaigns.get ⟨campaign_id, hlt⟩).completed = true ∧
      (s.campaigns.get ⟨campaign_id, hlt⟩).raised <
        (s.campaigns.get ⟨campaign_id, hlt⟩).goal ∧
      mapGet s.contributions (campaign_id, caller) ≠ 0 ∧
      ∃ t',
        transfer engine_account caller (mapGet s.contributions (campaign_id, caller))
          s.token = .ok t' ∧
        s' = { s with
               contributions := mapSet s.contributions (campaign_id, caller) 0,
               token := t' } := by
  unfold claim_refund claim_refund_raw at h
  split at h
  · next hlt =>
    refine ⟨hlt, ?_⟩
    simp only [] at h
    split at h
    · simp [observe] at h
    · next hcompl =>
      split at h
      · simp [observe] at h
      · next hsucc =>
        split at h
        · simp [observe] at h
        · next hzero =>
          split at h
          · next e heq => simp [observe] at h
          · next t' heq =>
            simp [observe] at h
            simp only [Bool.not_eq_true'] at hcompl
            refine ⟨by simpa using hcompl, by omega, hzero, t', heq, h.symm⟩
  · simp [observe] at h

theorem contribute_ok_inv {caller campaign_id amount now : Nat} {s s' : EngineState}
    (h : contribute caller campaign_id amount now s = (.ok (), s')) :
    ∃ (hlt : campaign_id < s.campaigns.length),
      (s.campaigns.get ⟨campaign_id, hlt⟩).completed = false ∧
      now ≤ (s.campaigns.get ⟨campaign_id, hlt⟩).deadline ∧
      ∃ t',
        transfer_from engine_account caller engine_account amount s.token = .ok t' ∧
        (s.campaigns.get ⟨campaign_id, hlt⟩).raised + amount < u256Bound ∧
        mapGet s.contributions (campaign_id, caller) + amount < u256Bound ∧
        s' = { token := t',
               campaigns := s.campaigns.set campaign_id
                 { s.campaigns.get ⟨campaign_id, hlt⟩ with
                   raised := (s.campaigns.get ⟨campaign_id, hlt⟩).raised + amount },
               contributions := mapSet s.contributions (campaign_id, caller)
                 (mapGet s.contributions (campaign_id, caller) + amount),
               next_campaign_id := s.next_campaign_id } := by
  unfold contribute contribute_raw at h
  split at h
  · next hlt =>
    refine ⟨hlt, ?_⟩
    simp only [] at h
    split at h
    · simp [observe] at h
    · next hcompl =>
      split at h
      · simp [observe] at h
      · next hdl =>
        split at h
        · next e heq => simp [observe] at h
        · next t' heq =>
          split at h
          · next hraise =>
            split at h
            · next hcontrib =>
              simp [observe] at h
              exact ⟨by simpa using hcompl, by omega, t', heq, hraise, hcontrib, h.symm⟩
            · simp [observe] at h
          · simp [observe] at h
  · simp [observe] at h

theorem finalize_ok_inv {caller campaign_id now : Nat} {s s' : EngineState}
    (h : finalize caller campaign_id now s = (.ok (), s')) :
    ∃ (hlt : campaign_id < s.campaigns.length) (t'' : TokenState),
      caller = (s.campaigns.get ⟨campaign_id, hlt⟩).owner ∧
      (s.campaigns.get ⟨campaign_id, hlt⟩).completed = false ∧
      (s.campaigns.get ⟨campaign_id, hlt⟩).deadline < now ∧
      s' = { token := t'',
             campaigns := s.campaigns.set campaign_id
               { s.campaigns.get ⟨campaign_id, hlt⟩ with completed := true },
             contributions := s.contributions,
             next_campaign_id := s.next_campaign_id } ∧
      ((s.campaigns.get ⟨campaign_id, hlt⟩).goal ≤
          (s.campaigns.get ⟨campaign_id, hlt⟩).raised →
        transfer engine_account (s.campaigns.get ⟨campaign_id, hlt⟩).owner
          (s.campaigns.get ⟨campaign_id, hlt⟩).raised s.token = .ok t'') ∧
      ((s.campaigns.get ⟨campaign_id, hlt⟩).raised <
          (s.campaigns.get ⟨campaign_id, hlt⟩).goal →
        t'' = s.token) := by
  unfold finalize finalize_raw at h
  split at h
  · next hlt =>
    refine ⟨hlt, ?_⟩
    simp only [] at h
    split at h
    · simp [observe] at h
    · next hown =>
      split at h
      · simp [observe] at h
      · next hcompl =>
        split at h
        · simp [observe] at h
        · next hdl =>
          split at h
          · next hgoal =>
            split at h
            · next e heq => simp [observe] at h
            · next t' heq =>
              simp [observe] at h
              exact ⟨t', by simpa using hown, by simpa using hcompl, by omega,
                h.symm, fun _ => heq, fun hr => by omega⟩
          · next hgoal =>
            simp [observe] at h
            exact ⟨s.token, by simpa using hown, by simpa using hcompl, by omega,
              h.symm, fun hg => by omega, fun _ => rfl⟩
  · simp [observe] at h

theorem run_snd_eq_or_ok (op : Op) (s : EngineState) :
    (run op s).1 = .ok () ∨ (run op s).2 = s := by
  cases op with
  | create caller title description goal deadline now =>
    cases hr : create_campaign_raw caller title description goal deadline now s <;>
      simp [run, create_campaign, observe, hr, Outcome.void]
  | contrib caller campaign_id amount now =>
    cases hr : contribute_raw caller campaign_id amount now s <;>
      simp [run, contribute, observe, hr]
  | fin caller campaign_id now =>
    cases hr : finalize_raw caller campaign_id now s <;>
      simp [run, finalize, observe, hr]
  | refund caller campaign_id =>
    cases hr : claim_refund_raw caller campaign_id s <;>
      simp [run, claim_refund, observe, hr]

theorem run_not_ok_eq {op : Op} {s : EngineState} (h : (run op s).1 ≠ .ok ()) :
    (run op s).2 = s :=
  (run_snd_eq_or_ok op s).resolve_left h

theorem run_create_ok_inv {caller : Nat} {title description : String}
    {goal deadline now : Nat} {s s' : EngineState}
    (h : run (.create caller title description goal deadline now) s = (.ok (), s')) :
    ∃ id, create_campaign caller title description goal deadline now s = (.ok id, s') := by
  simp only [run] at h
  rcases hc : create_campaign caller title description goal deadline now s with ⟨o, st⟩
  rw [hc] at h
  cases o with
  | ok v =>
    simp [Outcome.void] at h
    exact ⟨v, by rw [h]⟩
  | err e => simp [Outcome.void] at h
  | panic => simp [Outcome.void] at h

/-- Index/id coherence: the next-campaign-id counter equals the number of
stored campaigns, and the record at index `i` carries id `i`. -/
def IdInv (s : EngineState) : Prop :=
  s.next_campaign_id = s.campaigns.length ∧
  ∀ i (h : i < s.campaigns.length), (s.campaigns.get ⟨i, h⟩).id = i

theorem reaches_idInv {P : Op → Prop} {s : EngineState} (h : Reaches P s) : IdInv s := by
  induction h with
  | init t => exact ⟨rfl, fun i h => by simp [initState] at h⟩
  | @step s0 s1 op hr hP hrun ih =>
    obtain ⟨ih1, ih2⟩ := ih
    cases op with
    | create caller title description goal deadline now =>
      obtain ⟨id0, hc⟩ := run_create_ok_inv hrun
      obtain ⟨hg, hn, hid, hs'⟩ := create_campaign_ok_inv hc
      subst hs'
      refine ⟨by simp [ih1], fun i hi => ?_⟩
      simp only [List.length_append, List.length_cons, List.length_nil] at hi
      by_cases hlen : i < s0.campaigns.length
      · have hgi := ih2 i hlen
        simpa [List.get_eq_getElem, List.getElem_append_left hlen] using hgi
      · have hieq : i = s0.campaigns.length := by omega
        subst hieq
        simp [List.get_eq_getElem, List.getElem_concat_length, ih1]
    | contrib caller campaign_id amount now =>
      obtain ⟨hlt, hcompl, hdl, t', heq, hb1, hb2, hs'⟩ := contribute_ok_inv hrun
      subst hs'
      refine ⟨by simpa using ih1, fun i hi => ?_⟩
      simp only [List.length_set] at hi
      by_cases hci : campaign_id = i
      · subst hci
        have := ih2 campaign_id hlt
        simpa [List.get_eq_getElem, List.getElem_set_self] using this
      · have := ih2 i (by simpa using hi)
        simpa [List.get_eq_getElem, List.getElem_set_ne hci] using this
    | fin caller campaign_id now =>
      obtain ⟨hlt, t'', hown, hcompl, hdl, hs', _, _⟩ := finalize_ok_inv hrun
      subst hs'
      refine ⟨by simpa using ih1, fun i hi => ?_⟩
      simp only [List.length_set] at hi
      by_cases hci : campaign_id = i
      · subst hci
        have := ih2 campaign_id hlt
        simpa [List.get_eq_getElem, List.getElem_set_self] using this
      · have := ih2 i (by simpa using hi)
        simpa [List.get_eq_getElem, List.getElem_set_ne hci] using this
    | refund caller campaign_id =>
      obtain ⟨hlt, hcompl, hfail, hnz, t', heq, hs'⟩ := claim_refund_ok_inv hrun
      subst hs'
      exact ⟨ih1, ih2⟩

theorem raisedOf_eq (s : EngineState) (cid : Nat) :
    raisedOf s cid =
      if h : cid < s.campaigns.length then (s.campaigns.get ⟨cid, h⟩).raised
      else 0 := by
  by_cases h : cid < s.campaigns.length
  · simp [raisedOf, get_campaign, h]
  · simp [raisedOf, get_campaign, h]

/-- Accounting invariant: each campaign's contribution-ledger sum equals its
`raised` field. -/
def SumInv (s : EngineState) : Prop :=
  ∀ cid, contribSum s.contributions cid = raisedOf s cid

/-- Weak accounting invariant: each campaign's contribution-ledger sum is at
most its `raised` field. -/
def SumLeInv (s : EngineState) : Prop :=
  ∀ cid, contribSum s.contributions cid ≤ raisedOf s cid

theorem raisedOf_append_lt (t : TokenState) (cs : List Campaign) (c : Campaign)
    (m : List ((Nat × Nat) × Nat)) (n cid : Nat) (h : cid < cs.length) :
    raisedOf { token := t, campaigns := cs ++ [c], contributions := m,
               next_campaign_id := n } cid =
      (cs.get ⟨cid, h⟩).raised := by
  rw [raisedOf_eq]
  have hlen : cid < (cs ++ [c]).length := by simp; omega
  rw [dif_pos hlen]
  simp [List.get_eq_getElem, List.getElem_append_left h]

theorem raisedOf_append_self (t : TokenState) (cs : List Campaign) (c : Campaign)
    (m : List ((Nat × Nat) × Nat)) (n : Nat) :
    raisedOf { token := t, campaigns := cs ++ [c], contributions := m,
               next_campaign_id := n } cs.length = c.raised := by
  rw [raisedOf_eq]
  have hlen : cs.length < (cs ++ [c]).length := by simp
  rw [dif_pos hlen]
  simp [List.get_eq_getElem, List.getElem_concat_length]

theorem raisedOf_append_ge (t : TokenState) (cs : List Campaign) (c : Campaign)
    (m : List ((Nat × Nat) × Nat)) (n cid : Nat) (h : cs.length < cid) :
    raisedOf { token := t, campaigns := cs ++ [c], contributions := m,
               next_campaign_id := n } cid = 0 := by
  rw [raisedOf_eq]
  have hlen : ¬ cid < (cs ++ [c]).length := by simp; omega
  rw [dif_neg hlen]

theorem reaches_noRefund_sumInv {s : EngineState} (h : Reaches NotRefund s) :
    SumInv s := by
  induction h with
  | init t => intro cid; simp [initState, contribSum, raisedOf, get_campaign]
  | @step s0 s1 op hr hP hrun ih =>
    cases op with
    | create caller title description goal deadline now =>
      obtain ⟨id0, hc⟩ := run_create_ok_inv hrun
      obtain ⟨hg, hn, hid, hs'⟩ := create_campaign_ok_inv hc
      subst hs'
      intro cid
      rcases Nat.lt_trichotomy cid s0.campaigns.length with hlt | heq | hgt
      · rw [raisedOf_append_lt _ _ _ _ _ _ hlt]
        have := ih cid
        rw [raisedOf_eq, dif_pos hlt] at this
        exact this
      · subst heq
        rw [raisedOf_append_self]
        have := ih s0.campaigns.length
        rw [raisedOf_eq, dif_neg (by omega)] at this
        exact this
      · rw [raisedOf_append_ge _ _ _ _ _ _ hgt]
        have := ih cid
        rw [raisedOf_eq, dif_neg (by omega)] at this
        exact this
    | contrib caller campaign_id amount now =>
      obtain ⟨hlt, hcompl, hdl, t', heq, hb1, hb2, hs'⟩ := contribute_ok_inv hrun
      subst hs'
      intro cid
      by_cases hcid : campaign_id = cid
      · subst hcid
        have hsum := contribSum_mapSet_same s0.contributions campaign_id caller
          (mapGet s0.contributions (campaign_id, caller) + amount)
        have hih := ih campaign_id
        rw [raisedOf_eq, dif_pos hlt] at hih
        rw [raisedOf_eq, dif_pos (by simpa using hlt)]
        simp only [List.get_eq_getElem, List.getElem_set_self]
        simp only [List.get_eq_getElem] at hih
        omega
      · rw [contribSum_mapSet_other _ _ _ _ _ hcid]
        have hih := ih cid
        rw [raisedOf_eq] at hih
        rw [raisedOf_eq]
        by_cases hcl : cid < s0.campaigns.length
        · rw [dif_pos hcl] at hih
          rw [dif_pos (by simpa using hcl)]
          simp only [List.get_eq_getElem, List.getElem_set_ne hcid]
          simpa using hih
        · rw [dif_neg hcl] at hih
          rw [dif_neg (by simpa using hcl)]
          exact hih
    | fin caller campaign_id now =>
      obtain ⟨hlt, t'', hown, hcompl, hdl, hs', _, _⟩ := finalize_ok_inv hrun
      subst hs'
      intro cid
      have hih := ih cid
      rw [raisedOf_eq] at hih
      rw [raisedOf_eq]
      by_cases hcl : cid < s0.campaigns.length
      · rw [dif_pos hcl] at hih
        rw [dif_pos (by simpa using hcl)]
        by_cases hcid : campaign_id = cid
        · subst hcid
          simp only [List.get_eq_getElem, List.getElem_set_self]
          simpa [List.get_eq_getElem] using hih
        · simp only [List.get_eq_getElem, List.getElem_set_ne hcid]
          simpa using hih
      · rw [dif_neg hcl] at hih
        rw [dif_neg (by simpa using hcl)]
        exact hih
    | refund caller campaign_id => simp [NotRefund] at hP

theorem reaches_sumLeInv {P : Op → Prop} {s : EngineState} (h : Reaches P s) :
    SumLeInv s := by
  induction h with
  | init t => intro cid; simp [initState, contribSum, raisedOf, get_campaign]
  | @step s0 s1 op hr hP hrun ih =>
    cases op with
    | create caller title description goal deadline now =>
      obtain ⟨id0, hc⟩ := run_create_ok_inv hrun
      obtain ⟨hg, hn, hid, hs'⟩ := create_campaign_ok_inv hc
      subst hs'
      intro cid
      rcases Nat.lt_trichotomy cid s0.campaigns.length with hlt | heq | hgt
      · rw [raisedOf_append_lt _ _ _ _ _ _ hlt]
        have := ih cid
        rw [raisedOf_eq, dif_pos hlt] at this
        exact this
      · subst heq
        rw [raisedOf_append_self]
        have := ih s0.campaigns.length
        rw [raisedOf_eq, dif_neg (by omega)] at this
        exact this
      · rw [raisedOf_append_ge _ _ _ _ _ _ hgt]
        have := ih cid
        rw [raisedOf_eq, dif_neg (by omega)] at this
        exact this
    | contrib caller campaign_id amount now =>
      obtain ⟨hlt, hcompl, hdl, t', heq, hb1, hb2, hs'⟩ := contribute_ok_inv hrun
      subst hs'
      intro cid
      by_cases hcid : campaign_id = cid
      · subst hcid
        have hsum := contribSum_mapSet_same s0.contributions campaign_id caller
          (mapGet s0.contributions (campaign_id, caller) + amount)
        have hih := ih campaign_id
        rw [raisedOf_eq, dif_pos hlt] at hih
        rw [raisedOf_eq, dif_pos (by simpa using hlt)]
        simp only [List.get_eq_getElem, List.getElem_set_self]
        simp only [List.get_eq_getElem] at hih
        omega
      · rw [contribSum_mapSet_other _ _ _ _ _ hcid]
        have hih := ih cid
        rw [raisedOf_eq] at hih
        rw [raisedOf_eq]
        by_cases hcl : cid < s0.campaigns.length
        · rw [dif_pos hcl] at hih
          rw [dif_pos (by simpa using hcl)]
          simp only [List.get_eq_getElem, List.getElem_set_ne hcid]
          simpa using hih
        · rw [dif_neg hcl] at hih
          rw [dif_neg (by simpa using hcl)]
          exact hih
    | fin caller campaign_id now =>
      obtain ⟨hlt, t'', hown, hcompl, hdl, hs', _, _⟩ := finalize_ok_inv hrun
      subst hs'
      intro cid
      have hih := ih cid
      rw [raisedOf_eq] at hih
      rw [raisedOf_eq]
      by_cases hcl : cid < s0.campaigns.length
      · rw [dif_pos hcl] at hih
        rw [dif_pos (by simpa using hcl)]
        by_cases hcid : campaign_id = cid
        · subst hcid
          simp only [List.get_eq_getElem, List.getElem_set_self]
          simpa [List.get_eq_getElem] using hih
        · simp only [List.get_eq_getElem, List.getElem_set_ne hcid]
          simpa using hih
      · rw [dif_neg hcl] at hih
        rw [dif_neg (by simpa using hcl)]
        exact hih
    | refund caller campaign_id =>
      obtain ⟨hlt, hcompl, hfail, hnz, t', heq, hs'⟩ := claim_refund_ok_inv hrun
      subst hs'
      intro cid
      by_cases hcid : campaign_id = cid
      · subst hcid
        have hsum := contribSum_mapSet_same s0.contributions campaign_id caller 0
        have hih := ih campaign_id
        have hle := mapGet_le_contribSum s0.contributions campaign_id caller
        rw [raisedOf_eq, dif_pos hlt] at hih
        rw [raisedOf_eq, dif_pos (by simpa using hlt)]
        simp only [List.get_eq_getElem] at hih ⊢
        omega
      · rw [contribSum_mapSet_other _ _ _ _ _ hcid]
        have hih := ih cid
        rw [raisedOf_eq] at hih
        rw [raisedOf_eq]
        by_cases hcl : cid < s0.campaigns.length
        · rw [dif_pos hcl] at hih
          rw [dif_pos (by simpa using hcl)]
          simpa [List.get_eq_getElem] using hih
        · rw [dif_neg hcl] at hih
          rw [dif_neg (by simpa using hcl)]
          exact hih

/-- A scenario token ledger: contributor 1 holds 100 tokens and has approved
the engine for 100. -/
def demoToken : TokenState :=
  { balances := [(1, 100)], allowances := [((1, 0), 100)] }

def demo0 : EngineState := initState demoToken

/-- Owner 2 creates campaign 0 (goal 10, deadline 100) at time 0. -/
def demo1 : EngineState := (run (.create 2 "t" "d" 10 100 0) demo0).2

/-- Contributor 1 contributes 3 at time 50. -/
def demo2 : EngineState := (run (.contrib 1 0 3 50) demo1).2

/-- Owner 2 finalizes at time 101 with raised 3 < goal 10: failed campaign. -/
def demo3 : EngineState := (run (.fin 2 0 101) demo2).2

/-- Contributor 1 claims the refund of 3. -/
def demo4 : EngineState := (run (.refund 1 0) demo3).2

/-- Over-funding scenario: contributor 1 contributes 30 > goal 10. -/
def overDemo : EngineState := (run (.contrib 1 0 30 50) demo1).2

/-- Token ledger large enough to push a contribution entry to the top of the
`U256` range. -/
def bigToken : TokenState :=
  { balances := [(1, 2 ^ 300)], allowances := [((1, 0), 2 ^ 300)] }

def bigDemo0 : EngineState := initState bigToken

def bigDemo1 : EngineState := (run (.create 2 "t" "d" 10 100 0) bigDemo0).2

/-- Reachable state whose contribution entry for (0, 1) is `2^256 - 1`. -/
def bigDemo : EngineState := (run (.contrib 1 0 (u256Bound - 1) 50) bigDemo1).2

/-- Extract the token state of a successful token call (dummy on error). -/
def tokenOf : Except Error TokenState → TokenState
  | .ok t => t
  | .error _ => { balances := [], allowances := [] }

theorem demo1_reach : Reachable demo1 :=
  @Reaches.step (fun _ => True) demo0 demo1 (.create 2 "t" "d" 10 100 0)
    (.init demoToken) trivial (by rfl)

theorem demo2_reach : Reachable demo2 :=
  @Reaches.step (fun _ => True) demo1 demo2 (.contrib 1 0 3 50)
    demo1_reach trivial (by rfl)

theorem demo3_reach : Reachable demo3 :=
  @Reaches.step (fun _ => True) demo2 demo3 (.fin 2 0 101)
    demo2_reach trivial (by rfl)

theorem demo4_reach : Reachable demo4 :=
  @Reaches.step (fun _ => True) demo3 demo4 (.refund 1 0)
    demo3_reach trivial (by rfl)

theorem demo3_reach_nr : Reaches NotRefund demo3 :=
  @Reaches.step NotRefund demo2 demo3 (.fin 2 0 101)
    (@Reaches.step NotRefund demo1 demo2 (.contrib 1 0 3 50)
      (@Reaches.step NotRefund demo0 demo1 (.create 2 "t" "d" 10 100 0)
        (.init demoToken) (by trivial) (by rfl))
      (by trivial) (by rfl))
    (by trivial) (by rfl)

theorem overDemo_reach : Reachable overDemo :=
  @Reaches.step (fun _ => True) demo1 overDemo (.contrib 1 0 30 50)
    demo1_reach trivial (by rfl)

theorem bigDemo_reach : Reachable bigDemo :=
  @Reaches.step (fun _ => True) bigDemo1 bigDemo (.contrib 1 0 (u256Bound - 1) 50)
    (@Reaches.step (fun _ => True) bigDemo0 bigDemo1 (.create 2 "t" "d" 10 100 0)
      (.init bigToken) trivial (by rfl))
    trivial (by rfl)

/-- A concrete state whose raw `contribute` execution errors with `Overflow`
only after the token `transfer_from` has already moved tokens: the partial
state at the error return differs from the input state, so the host-level
frame revert applied by `observe` is what restores atomicity. -/
def overflowRaisedState : EngineState :=
  { token := { balances := [(1, 1)], allowances := [((1, 0), 1)] },
    campaigns := [{ id := 0, title := "t", description := "d", goal := 10,
                    deadline := 100, owner := 2, raised := u256Bound - 1,
                    completed := false }],
    contributions := [],
    next_campaign_id := 1 }

theorem contribute_raw_partial_state_differs :
    ∃ sp, contribute_raw 1 0 1 50 overflowRaisedState = .err .Overflow sp ∧
      sp.token ≠ overflowRaisedState.token := by
  refine ⟨{ overflowRaisedState with
            token := { balances := [(1, 0), (0, 1)],
                       allowances := [((1, 0), 0)] } }, by rfl, by decide⟩

/-- C2: every mutating EscrowEngine operation is atomic — whenever an
operation returns an error, the observable post-state (token balances,
allowances, campaign records, contribution entries, and hence the whole
state) is the input state.  This holds by the ink! frame-revert semantics
captured in `observe`, which is load-bearing for the `Overflow` error of
`contribute` raised after the token `transfer_from` already moved tokens
(see `contribute_raw_partial_state_differs`). -/
theorem mutating_ops_atomic (op : Op) (s : EngineState) (e : Error)
    (h : (run op s).1 = .err e) :
    (run op s).2.token.balances = s.token.balances ∧
    (run op s).2.token.allowances = s.token.allowances ∧
    (run op s).2.campaigns = s.campaigns ∧
    (run op s).2.contributions = s.contributions ∧
    (run op s).2 = s := by
  have h2 : (run op s).2 = s := run_not_ok_eq (by rw [h]; intro hc; cases hc)
  exact ⟨by rw [h2], by rw [h2], by rw [h2], by rw [h2], h2⟩

theorem mutating_ops_atomic_witness :
    (run (.contrib 1 0 3 101) demo1).1 = .err .DeadlineReached ∧
    (run (.contrib 1 0 3 101) demo1).2 = demo1 :=
  ⟨by rfl, (mutating_ops_atomic (.contrib 1 0 3 101) demo1 .DeadlineReached (by rfl)).2.2.2.2⟩

/-- C6: for an existing campaign, `finalize` called by any identity other
than the campaign's owner fails with `OnlyOwner` and leaves the state
unchanged — for every timestamp `now` and regardless of the `completed`
flag, since the owner check precedes the completed and deadline checks. -/
theorem finalize_only_owner (caller campaign_id now : Nat) (s : EngineState)
    (h : campaign_id < s.campaigns.length)
    (hne : caller ≠ (s.campaigns.get ⟨campaign_id, h⟩).owner) :
    finalize caller campaign_id now s = (.err .OnlyOwner, s) := by
  unfold finalize finalize_raw
  rw [dif_pos h]
  simp only []
  rw [if_pos hne]
  rfl

theorem finalize_only_owner_witness :
    finalize 3 0 50 demo2 = (.err .OnlyOwner, demo2) ∧
    finalize 3 0 200 demo3 = (.err .OnlyOwner, demo3) :=
  ⟨finalize_only_owner 3 0 50 demo2 (by decide) (by decide),
   finalize_only_owner 3 0 200 demo3 (by decide) (by decide)⟩

/-- C3: after a successful `claim_refund` for (campaign, caller), a second
`claim_refund` by the same caller for the same campaign fails with
`NoContribution` and changes no state: the entry was cleared to zero before
the refund transfer, and `claim_refund` never modifies campaign records. -/
theorem claim_refund_no_double (caller campaign_id : Nat) (s s' : EngineState)
    (h : claim_refund caller campaign_id s = (.ok (), s')) :
    claim_refund caller campaign_id s' = (.err .NoContribution, s') := by
  obtain ⟨hlt, hcompl, hfail, hnz, t', heq, hs'⟩ := claim_refund_ok_inv h
  subst hs'
  simp only [List.get_eq_getElem] at hcompl hfail
  unfold claim_refund claim_refund_raw
  rw [dif_pos (by simpa using hlt)]
  simp only []
  rw [if_neg (by simp [hcompl]), if_neg (by simp only [List.get_eq_getElem]; omega),
    if_pos (mapGet_mapSet_self s.contributions (campaign_id, caller) 0)]
  rfl

theorem claim_refund_no_double_witness :
    claim_refund 1 0 demo4 = (.err .NoContribution, demo4) :=
  claim_refund_no_double 1 0 demo3 demo4 (by rfl)

/-- C5: `create_campaign` fails with `InvalidParameters` exactly when
`goal = 0` or `deadline <= now`; otherwise it appends a campaign carrying the
given fields with `owner = caller`, `raised = 0`, `completed = false`, returns
the next sequential id (the counter starts at 0 in the initial state), and
ids are never reused (in every reachable state distinct indices carry
distinct ids). -/
theorem create_campaign_spec :
    (∀ (caller : Nat) (title description : String) (goal deadline now : Nat)
        (s : EngineState),
      (create_campaign caller title description goal deadline now s).1 =
          .err .InvalidParameters ↔ (goal = 0 ∨ deadline ≤ now)) ∧
    (∀ (caller : Nat) (title description : String) (goal deadline now : Nat)
        (s : EngineState), goal ≠ 0 → now < deadline →
      create_campaign caller title description goal deadline now s =
        (.ok s.next_campaign_id,
         { s with campaigns := s.campaigns ++ [{ id := s.next_campaign_id, title := title, description := description, goal := goal, deadline := deadline, owner := caller, raised := 0, completed := false }], next_campaign_id := s.next_campaign_id + 1 })) ∧
    (∀ t, (initState t).next_campaign_id = 0) ∧
    (∀ s, Reachable s → ∀ i j (hi : i < s.campaigns.length)
        (hj : j < s.campaigns.length), i ≠ j →
      (s.campaigns.get ⟨i, hi⟩).id ≠ (s.campaigns.get ⟨j, hj⟩).id) := by
  refine ⟨?_, ?_, fun t => rfl, ?_⟩
  · intro caller title description goal deadline now s
    unfold create_campaign create_campaign_raw
    by_cases hcond : goal = 0 ∨ deadline ≤ now
    · rw [if_pos hcond]
      simpa [observe] using hcond
    · rw [if_neg hcond]
      simpa [observe] using hcond
  · intro caller title description goal deadline now s hg hn
    unfold create_campaign create_campaign_raw
    rw [if_neg (by omega)]
    rfl
  · intro s hs i j hi hj hij
    obtain ⟨_, hids⟩ := reaches_idInv hs
    rw [hids i hi, hids j hj]
    exact hij

theorem create_campaign_spec_witness :
    ((create_campaign 2 "t" "d" 0 100 50 demo0).1 = .err .InvalidParameters) ∧
    (create_campaign 2 "t" "d" 10 100 0 demo0 = (.ok 0, demo1)) ∧
    ((initState demoToken).next_campaign_id = 0) ∧
    ((demo1.campaigns.get ⟨0, by decide⟩).id = 0) :=
  ⟨(create_campaign_spec.1 2 "t" "d" 0 100 50 demo0).mpr (.inl rfl),
   create_campaign_spec.2.1 2 "t" "d" 10 100 0 demo0 (by decide) (by decide),
   create_campaign_spec.2.2.1 demoToken,
   by decide⟩

/-- C10: in every reachable state the next-campaign-id counter equals the
number of stored campaigns, the record at index `i` has id `i`, and
`get_campaign id` succeeds exactly when `id < get_campaign_count`, returning
a record whose id field is the requested id. -/
theorem get_campaign_consistent (s : EngineState) (h : Reachable s) :
    s.next_campaign_id = get_campaign_count s ∧
    (∀ i (hi : i < s.campaigns.length), (s.campaigns.get ⟨i, hi⟩).id = i) ∧
    (∀ id, (∃ c, get_campaign id s = .ok c) ↔ id < get_campaign_count s) ∧
    (∀ id c, get_campaign id s = .ok c → c.id = id) := by
  obtain ⟨hn, hids⟩ := reaches_idInv h
  refine ⟨hn, hids, fun id => ?_, fun id c hc => ?_⟩
  · unfold get_campaign get_campaign_count
    by_cases hlt : id < s.campaigns.length
    · rw [dif_pos hlt]
      simpa using hlt
    · rw [dif_neg hlt]
      simpa using hlt
  · unfold get_campaign at hc
    split at hc
    · next hlt =>
      have := hids id hlt
      simp only [Except.ok.injEq] at hc
      rw [← hc]
      exact this
    · cases hc

theorem get_campaign_consistent_witness :
    demo2.next_campaign_id = get_campaign_count demo2 ∧
    (∀ id c, get_campaign id demo2 = .ok c → c.id = id) :=
  ⟨(get_campaign_consistent demo2 demo2_reach).1,
   (get_campaign_consistent demo2 demo2_reach).2.2.2⟩

theorem transfer_error_kind {src dst amount : Nat} {t : TokenState} {e : Error}
    (h : transfer src dst amount t = .error e) : e = .InsufficientBalance := by
  unfold transfer at h
  simp only [] at h
  split at h
  · cases h
    rfl
  · cases h

theorem transfer_from_error_kind {spender owner dst amount : Nat}
    {t : TokenState} {e : Error}
    (h : transfer_from spender owner dst amount t = .error e) :
    e = .InsufficientAllowance ∨ e = .InsufficientBalance := by
  unfold transfer_from at h
  simp only [] at h
  split at h
  · cases h
    exact .inl rfl
  · split at h
    · next e' heq =>
      cases h
      exact .inr (transfer_error_kind heq)
    · cases h

/-- C7: deadline comparisons are strict in opposite directions.  For an
existing, non-completed campaign, `contribute` fails with `DeadlineReached`
exactly when `now > deadline`; for an existing, non-completed campaign called
by its owner, `finalize` fails with `DeadlineNotReached` exactly when
`now <= deadline`.  Hence at `now = deadline`, `contribute` passes the
deadline check while `finalize` is rejected. -/
theorem deadline_checks_strict :
    (∀ (caller campaign_id amount now : Nat) (s : EngineState)
        (h : campaign_id < s.campaigns.length),
      (s.campaigns.get ⟨campaign_id, h⟩).completed = false →
      ((contribute caller campaign_id amount now s).1 = .err .DeadlineReached ↔
        (s.campaigns.get ⟨campaign_id, h⟩).deadline < now)) ∧
    (∀ (caller campaign_id now : Nat) (s : EngineState)
        (h : campaign_id < s.campaigns.length),
      caller = (s.campaigns.get ⟨campaign_id, h⟩).owner →
      (s.campaigns.get ⟨campaign_id, h⟩).completed = false →
      ((finalize caller campaign_id now s).1 = .err .DeadlineNotReached ↔
        now ≤ (s.campaigns.get ⟨campaign_id, h⟩).deadline)) := by
  constructor
  · intro caller campaign_id amount now s h hcompl
    simp only [List.get_eq_getElem] at hcompl
    unfold contribute contribute_raw
    rw [dif_pos h]
    simp only [List.get_eq_getElem]
    rw [if_neg (by simp [hcompl])]
    by_cases hdl : s.campaigns[campaign_id].deadline < now
    · rw [if_pos hdl]
      simpa [observe] using hdl
    · rw [if_neg hdl]
      constructor
      · intro hcontra
        exfalso
        rcases htr : transfer_from engine_account caller engine_account amount s.token with e | t'
        · rw [htr] at hcontra
          simp [observe] at hcontra
          rcases transfer_from_error_kind htr with he | he <;> simp [he] at hcontra
        · rw [htr] at hcontra
          split at hcontra
          · next e heq => exact Except.noConfusion heq
          · next t2 heq =>
            split at hcontra
            · split at hcontra
              · simp [observe] at hcontra
              · simp [observe] at hcontra
            · simp [observe] at hcontra
      · intro hb
        exact absurd hb hdl
  · intro caller campaign_id now s h hown hcompl
    simp only [List.get_eq_getElem] at hown hcompl
    unfold finalize finalize_raw
    rw [dif_pos h]
    simp only [List.get_eq_getElem]
    rw [if_neg (by simp [hown]), if_neg (by simp [hcompl])]
    by_cases hdl : now ≤ s.campaigns[campaign_id].deadline
    · rw [if_pos hdl]
      simpa [observe] using hdl
    · rw [if_neg hdl]
      constructor
      · intro hcontra
        exfalso
        split at hcontra
        · split at hcontra
          · next e heq =>
            simp [observe] at hcontra
            have := transfer_error_kind heq
            simp [this] at hcontra
          · simp [observe] at hcontra
        · simp [observe] at hcontra
      · intro hb
        exact absurd hb hdl

theorem deadline_checks_strict_witness :
    ((contribute 1 0 3 101 demo1).1 = .err .DeadlineReached) ∧
    ((contribute 1 0 3 100 demo1).1 ≠ .err .DeadlineReached) ∧
    ((finalize 2 0 100 demo2).1 = .err .DeadlineNotReached) ∧
    ((finalize 2 0 101 demo2).1 ≠ .err .DeadlineNotReached) :=
  ⟨(deadline_checks_strict.1 1 0 3 101 demo1 (by decide) (by decide)).mpr (by decide),
   fun hc => absurd
     ((deadline_checks_strict.1 1 0 3 100 demo1 (by decide) (by decide)).mp hc)
     (by decide),
   (deadline_checks_strict.2 2 0 100 demo2 (by decide) (by decide) (by decide)).mpr (by decide),
   fun hc => absurd
     ((deadline_checks_strict.2 2 0 101 demo2 (by decide) (by decide) (by decide)).mp hc)
     (by decide)⟩

theorem get_congr {l l' : List Campaign} (h : l' = l) (i : Nat)
    (hi' : i < l'.length) (hi : i < l.length) :
    l'.get ⟨i, hi'⟩ = l.get ⟨i, hi⟩ := by
  subst h
  rfl

theorem run_completed_pointwise (op : Op) (s : EngineState) (i : Nat)
    (h1 : i < (run op s).2.campaigns.length) (h0 : i < s.campaigns.length) :
    ((run op s).2.campaigns.get ⟨i, h1⟩).completed =
      (s.campaigns.get ⟨i, h0⟩).completed ∨
    (((run op s).2.campaigns.get ⟨i, h1⟩).completed = true ∧
      ∃ caller now, op = .fin caller i now) := by
  rcases run_snd_eq_or_ok op s with hok | hsame
  · have hrun : run op s = (.ok (), (run op s).2) := by rw [← hok]
    cases op with
    | create caller title description goal deadline now =>
      obtain ⟨id0, hc⟩ := run_create_ok_inv hrun
      obtain ⟨hg, hn, hid, hs'⟩ := create_campaign_ok_inv hc
      left
      have hcs := congrArg EngineState.campaigns hs'
      rw [get_congr hcs i h1 (hcs ▸ h1)]
      simp [List.get_eq_getElem, List.getElem_append_left h0]
    | contrib caller campaign_id amount now =>
      obtain ⟨hlt, hcompl2, hdl, t', heq, hb1, hb2, hs'⟩ := contribute_ok_inv hrun
      left
      have hcs := congrArg EngineState.campaigns hs'
      rw [get_congr hcs i h1 (hcs ▸ h1)]
      by_cases hci : campaign_id = i
      · subst hci
        simp [List.get_eq_getElem, List.getElem_set_self]
      · simp [List.get_eq_getElem, List.getElem_set_ne hci]
    | fin caller campaign_id now =>
      obtain ⟨hlt, t'', hown, hcompl2, hdl, hs', _, _⟩ := finalize_ok_inv hrun
      have hcs := congrArg EngineState.campaigns hs'
      by_cases hci : campaign_id = i
      · subst hci
        right
        refine ⟨?_, caller, now, rfl⟩
        rw [get_congr hcs campaign_id h1 (hcs ▸ h1)]
        simp [List.get_eq_getElem, List.getElem_set_self]
      · left
        rw [get_congr hcs i h1 (hcs ▸ h1)]
        simp [List.get_eq_getElem, List.getElem_set_ne hci]
    | refund caller campaign_id =>
      obtain ⟨hlt, hcompl2, hfail, hnz, t', heq, hs'⟩ := claim_refund_ok_inv hrun
      left
      have hcs := congrArg EngineState.campaigns hs'
      rw [get_congr hcs i h1 (hcs ▸ h1)]
  · left
    have hcs := congrArg EngineState.campaigns hsame
    rw [get_congr hcs i h1 (hcs ▸ h1)]

/-- C4: a campaign's `completed` flag is monotone — it can go from `false` to
`true` at most once and no engine operation resets it: (1) every operation
preserves `completed = true`; (2) `finalize` on an already-completed campaign
(called by its owner, who alone passes the preceding owner check) fails with
`CampaignCompleted` and changes nothing; (3) every operation other than
`finalize` leaves every campaign's `completed` flag exactly as it was. -/
theorem completed_monotone :
    (∀ (op : Op) (s : EngineState) (i : Nat)
        (h1 : i < (run op s).2.campaigns.length) (h0 : i < s.campaigns.length),
      (s.campaigns.get ⟨i, h0⟩).completed = true →
      ((run op s).2.campaigns.get ⟨i, h1⟩).completed = true) ∧
    (∀ (caller campaign_id now : Nat) (s : EngineState)
        (h : campaign_id < s.campaigns.length),
      caller = (s.campaigns.get ⟨campaign_id, h⟩).owner →
      (s.campaigns.get ⟨campaign_id, h⟩).completed = true →
      finalize caller campaign_id now s = (.err .CampaignCompleted, s)) ∧
    (∀ (op : Op) (s : EngineState),
      (∀ caller campaign_id now, op ≠ .fin caller campaign_id now) →
      ∀ (i : Nat) (h1 : i < (run op s).2.campaigns.length)
        (h0 : i < s.campaigns.length),
      ((run op s).2.campaigns.get ⟨i, h1⟩).completed =
        (s.campaigns.get ⟨i, h0⟩).completed) := by
  refine ⟨?_, ?_, ?_⟩
  · intro op s i h1 h0 hc
    rcases run_completed_pointwise op s i h1 h0 with heq | ⟨htrue, _⟩
    · rw [heq]
      exact hc
    · exact htrue
  · intro caller campaign_id now s h hown hcompl
    simp only [List.get_eq_getElem] at hown hcompl
    unfold finalize finalize_raw
    rw [dif_pos h]
    simp only [List.get_eq_getElem]
    rw [if_neg (by simp [hown]), if_pos hcompl]
    rfl
  · intro op s hne i h1 h0
    rcases run_completed_pointwise op s i h1 h0 with heq | ⟨_, caller, now, hop⟩
    · exact heq
    · exact absurd hop (hne caller i now)

theorem completed_monotone_witness :
    (((run (.refund 1 0) demo3).2.campaigns.get ⟨0, by decide⟩).completed = true) ∧
    (finalize 2 0 200 demo3 = (.err .CampaignCompleted, demo3)) ∧
    (((run (.contrib 1 0 3 50) demo1).2.campaigns.get ⟨0, by decide⟩).completed =
      (demo1.campaigns.get ⟨0, by decide⟩).completed) :=
  ⟨completed_monotone.1 (.refund 1 0) demo3 0 (by decide) (by decide) (by decide),
   completed_monotone.2.1 2 0 200 demo3 (by decide) (by decide) (by decide),
   completed_monotone.2.2 (.contrib 1 0 3 50) demo1
     (fun caller campaign_id now hc => Op.noConfusion hc) 0 (by decide) (by decide)⟩

theorem transfer_ok_balances {src dst amount : Nat} {t : TokenState}
    (hb : amount ≤ mapGet t.balances src) (hne : dst ≠ src) :
    ∃ t', transfer src dst amount t = .ok t' ∧
      mapGet t'.balances dst = mapGet t.balances dst + amount ∧
      mapGet t'.balances src = mapGet t.balances src - amount := by
  unfold transfer
  simp only []
  rw [if_neg (by omega)]
  refine ⟨_, rfl, ?_, ?_⟩
  · rw [mapGet_mapSet_self]
    rw [mapGet_mapSet_ne _ _ _ _ hne]
  · rw [mapGet_mapSet_ne _ _ _ _ (fun h => hne h.symm), mapGet_mapSet_self]

/-- C9: over-funding is allowed and paid in full.  `contribute` succeeds or
fails independently of how `raised` compares to `goal` — its success is
equivalent to a condition that never mentions `goal` — and a successful
`finalize` with `raised >= goal` transfers the entire `raised` amount
(surplus included) from the escrow account to the owner. -/
theorem overfunding_allowed :
    (∀ (caller campaign_id amount now : Nat) (s : EngineState),
      (contribute caller campaign_id amount now s).1 = .ok () ↔
        ∃ (hlt : campaign_id < s.campaigns.length),
          (s.campaigns.get ⟨campaign_id, hlt⟩).completed = false ∧
          now ≤ (s.campaigns.get ⟨campaign_id, hlt⟩).deadline ∧
          (∃ t', transfer_from engine_account caller engine_account amount
              s.token = .ok t') ∧
          (s.campaigns.get ⟨campaign_id, hlt⟩).raised + amount < u256Bound ∧
          mapGet s.contributions (campaign_id, caller) + amount < u256Bound) ∧
    (∀ (caller campaign_id now : Nat) (s : EngineState)
        (hlt : campaign_id < s.campaigns.length),
      caller = (s.campaigns.get ⟨campaign_id, hlt⟩).owner →
      (s.campaigns.get ⟨campaign_id, hlt⟩).completed = false →
      (s.campaigns.get ⟨campaign_id, hlt⟩).deadline < now →
      (s.campaigns.get ⟨campaign_id, hlt⟩).goal ≤
        (s.campaigns.get ⟨campaign_id, hlt⟩).raised →
      (s.campaigns.get ⟨campaign_id, hlt⟩).raised ≤
        mapGet s.token.balances engine_account →
      (s.campaigns.get ⟨campaign_id, hlt⟩).owner ≠ engine_account →
      (finalize caller campaign_id now s).1 = .ok () ∧
      mapGet (finalize caller campaign_id now s).2.token.balances
          (s.campaigns.get ⟨campaign_id, hlt⟩).owner =
        mapGet s.token.balances (s.campaigns.get ⟨campaign_id, hlt⟩).owner +
          (s.campaigns.get ⟨campaign_id, hlt⟩).raised ∧
      mapGet (finalize caller campaign_id now s).2.token.balances
          engine_account =
        mapGet s.token.balances engine_account -
          (s.campaigns.get ⟨campaign_id, hlt⟩).raised) := by
  constructor
  · intro caller campaign_id amount now s
    constructor
    · intro hok
      have hpair : contribute caller campaign_id amount now s =
          (.ok (), (contribute caller campaign_id amount now s).2) := by
        rw [← hok]
      obtain ⟨hlt, hcompl, hdl, t', heq, hb1, hb2, _⟩ := contribute_ok_inv hpair
      exact ⟨hlt, hcompl, hdl, ⟨t', heq⟩, hb1, hb2⟩
    · rintro ⟨hlt, hcompl, hdl, ⟨t', heq⟩, hb1, hb2⟩
      simp only [List.get_eq_getElem] at hcompl hdl hb1
      unfold contribute contribute_raw
      rw [dif_pos hlt]
      simp only [List.get_eq_getElem]
      rw [if_neg (by simp [hcompl]), if_neg (by omega), heq]
      simp only []
      rw [if_pos hb1]
      rw [if_pos (by simpa using hb2)]
      rfl
  · intro caller campaign_id now s hlt hown hcompl hdl hgoal hbal hne
    obtain ⟨t', htr, hdst, hsrc⟩ := transfer_ok_balances hbal hne
    simp only [List.get_eq_getElem] at hown hcompl hdl hgoal htr hdst hsrc ⊢
    unfold finalize finalize_raw
    rw [dif_pos hlt]
    simp only [List.get_eq_getElem]
    rw [if_neg (by simp [hown]), if_neg (by simp [hcompl]), if_neg (by omega),
      if_pos hgoal, htr]
    exact ⟨rfl, hdst, hsrc⟩

theorem overfunding_allowed_witness :
    ((contribute 1 0 30 50 demo1).1 = .ok ()) ∧
    ((finalize 2 0 101 overDemo).1 = .ok ()) ∧
    (mapGet (finalize 2 0 101 overDemo).2.token.balances 2 = 0 + 30) ∧
    (mapGet (finalize 2 0 101 overDemo).2.token.balances engine_account =
      30 - 30) :=
  ⟨(overfunding_allowed.1 1 0 30 50 demo1).mpr
     ⟨by decide, by decide, by decide,
      ⟨tokenOf (transfer_from engine_account 1 engine_account 30
          demo1.token), by rfl⟩,
      by decide, by decide⟩,
   (overfunding_allowed.2 2 0 101 overDemo (by decide) (by decide) (by decide)
      (by decide) (by decide) (by decide) (by decide)).1,
   (overfunding_allowed.2 2 0 101 overDemo (by decide) (by decide) (by decide)
      (by decide) (by decide) (by decide) (by decide)).2.1,
   (overfunding_allowed.2 2 0 101 overDemo (by decide) (by decide) (by decide)
      (by decide) (by decide) (by decide) (by decide)).2.2⟩

/-- C1 counterexample: `demo4` is reachable (create, contribute 3, finalize
failed, claim_refund), and in it campaign 0 has contribution sum 0 but
`raised = 3`: `claim_refund` zeroes the ledger entry without decreasing
`raised`, so the sum invariant does not hold at states observed after a
successful refund. -/
theorem sum_raised_counterexample :
    Reachable demo4 ∧ contribSum demo4.contributions 0 = 0 ∧
    raisedOf demo4 0 = 3 :=
  ⟨demo4_reach, by decide, by decide⟩

/-- C1 amended: the contribution sums equal `raised` at every state reachable
by create_campaign/contribute/finalize alone; a successful `claim_refund`
leaves every campaign's `raised` unchanged while decreasing the refunded
campaign's sum by the (non-zero) refunded entry, so the equality does not
survive refunds. -/
theorem contribution_sum_eq_raised :
    (∀ s, Reaches NotRefund s →
      ∀ cid, contribSum s.contributions cid = raisedOf s cid) ∧
    (∀ (caller campaign_id : Nat) (s s' : EngineState),
      claim_refund caller campaign_id s = (.ok (), s') →
      (∀ cid, raisedOf s' cid = raisedOf s cid) ∧
      contribSum s'.contributions campaign_id +
          get_contribution campaign_id caller s =
        contribSum s.contributions campaign_id ∧
      get_contribution campaign_id caller s ≠ 0) := by
  constructor
  · intro s hs
    exact reaches_noRefund_sumInv hs
  · intro caller campaign_id s s' h
    obtain ⟨hlt, hcompl, hfail, hnz, t', heq, hs'⟩ := claim_refund_ok_inv h
    subst hs'
    refine ⟨fun cid => ?_, ?_, hnz⟩
    · rw [raisedOf_eq, raisedOf_eq]
    · have hms := contribSum_mapSet_same s.contributions campaign_id caller 0
      unfold get_contribution
      simp only []
      omega

theorem contribution_sum_eq_raised_witness :
    (contribSum demo3.contributions 0 = raisedOf demo3 0) ∧
    ((∀ cid, raisedOf demo4 cid = raisedOf demo3 cid) ∧
      contribSum demo4.contributions 0 + get_contribution 0 1 demo3 =
        contribSum demo3.contributions 0 ∧
      get_contribution 0 1 demo3 ≠ 0) :=
  ⟨contribution_sum_eq_raised.1 demo3 demo3_reach_nr 0,
   contribution_sum_eq_raised.2 1 0 demo3 demo4 (by rfl)⟩

/-- A raw (not engine-reachable) storage state whose ledger entry for
(campaign 0, contributor 1) sits at the top of the `U256` range while the
campaign's `raised` is 0. -/
def hugeEntryState : EngineState :=
  { token := { balances := [(1, 1)], allowances := [((1, 0), 1)] },
    campaigns := [{ id := 0, title := "t", description := "d", goal := 10,
                    deadline := 100, owner := 2, raised := 0,
                    completed := false }],
    contributions := [((0, 1), u256Bound - 1)],
    next_campaign_id := 1 }

/-- C8 counterexample: the contribution-ledger update in `contribute` is the
unchecked `U256` addition `contribution + amount`.  At `hugeEntryState`,
where the prior entry is `2^256 - 1`, contributing 1 makes the entry sum
exceed the range, yet the operation panics (trap) instead of failing with the
typed error `Overflow` — the checked add guards only `raised`, which is 0
here. -/
theorem contribution_add_unchecked :
    u256Bound ≤ get_contribution 0 1 hugeEntryState + 1 ∧
    (contribute 1 0 1 50 hugeEntryState).1 = .panic ∧
    (contribute 1 0 1 50 hugeEntryState).1 ≠ .err .Overflow :=
  ⟨by decide, by decide, by decide⟩

/-- C8 amended: in every engine-reachable state a contribution entry never
exceeds its campaign's `raised`, so the checked add on `raised` fires first:
`contribute` never panics, and whenever the ledger entry plus `amount`
exceeds the `U256` range (and control reaches the arithmetic, i.e. the
campaign exists, is not completed, the deadline has not passed and the token
transfer succeeds) it fails with the typed error `Overflow`. -/
theorem contribution_add_checked (s : EngineState) (hs : Reachable s)
    (caller campaign_id amount now : Nat) :
    (contribute caller campaign_id amount now s).1 ≠ .panic ∧
    (∀ t' (hlt : campaign_id < s.campaigns.length),
      transfer_from engine_account caller engine_account amount s.token =
        .ok t' →
      (s.campaigns.get ⟨campaign_id, hlt⟩).completed = false →
      now ≤ (s.campaigns.get ⟨campaign_id, hlt⟩).deadline →
      u256Bound ≤ get_contribution campaign_id caller s + amount →
      (contribute caller campaign_id amount now s).1 = .err .Overflow) := by
  have hkey : ∀ (hlt : campaign_id < s.campaigns.length),
      mapGet s.contributions (campaign_id, caller) ≤
        (s.campaigns.get ⟨campaign_id, hlt⟩).raised := by
    intro hlt
    have h1 := mapGet_le_contribSum s.contributions campaign_id caller
    have h2 := reaches_sumLeInv hs campaign_id
    rw [raisedOf_eq, dif_pos hlt] at h2
    omega
  constructor
  · intro hp
    unfold contribute contribute_raw at hp
    split at hp
    · next hlt =>
      simp only [] at hp
      split at hp
      · simp [observe] at hp
      · next hcompl =>
        split at hp
        · simp [observe] at hp
        · next hdl =>
          split at hp
          · simp [observe] at hp
          · next t' heq =>
            split at hp
            · next hb1 =>
              split at hp
              · simp [observe] at hp
              · next hb2 =>
                have hub := hkey hlt
                simp at hb1 hb2 hub
                omega
            · simp [observe] at hp
    · simp [observe] at hp
  · intro t' hlt heq hcompl hdl hover
    have hub := hkey hlt
    simp only [List.get_eq_getElem] at hcompl hdl hub
    unfold get_contribution at hover
    unfold contribute contribute_raw
    rw [dif_pos hlt]
    simp only [List.get_eq_getElem]
    rw [if_neg (by simp [hcompl]), if_neg (by omega), heq]
    simp only []
    rw [if_neg (by omega)]
    rfl

theorem contribution_add_checked_witness :
    ((contribute 1 0 1 50 bigDemo).1 ≠ .panic) ∧
    ((contribute 1 0 1 50 bigDemo).1 = .err .Overflow) :=
  ⟨(contribution_add_checked bigDemo bigDemo_reach 1 0 1 50).1,
   (contribution_add_checked bigDemo bigDemo_reach 1 0 1 50).2
     (tokenOf (transfer_from engine_account 1 engine_account 1 bigDemo.token))
     (by decide) (by rfl) (by rfl) (by decide) (by decide)⟩
